import Mathlib

/-!
Shallow embedding of the in-memory TTL cache of `src/modules/cache.go`
(package `modules` of rgil90/goin-memory-ds), and proofs of the spec's
claims about it.

Modelling decisions:
* Time is modelled in whole Unix seconds as `Int`, the resolution that
  `time.Now().Unix()` exposes and that the `Expiration` field stores
  (the spec stipulates seconds resolution).  Each operation that reads
  the clock takes the current time `now : Int` as an explicit argument.
* The Go map `map[string]CacheItem` is modelled as an association list
  whose keys are unique in every reachable state (`Cache.WF`); map
  assignment, lookup and `delete` become `setItem`, `lookupItem` and
  `removeKey`.
* The `sync.RWMutex` is not modelled: each exported operation is embedded
  as the atomic state transformation it performs while holding the lock.
* The variadic `ttl ...time.Duration` parameter becomes `Option Int`
  (seconds): `none` models the zero-argument call, `some t` a call with
  one duration.
* The `stopCleanup chan bool` channel is modelled by the flag
  `stopClosed`: `close(c.stopCleanup)` sets it; Go's run-time panic when
  `close` is invoked on an already-closed channel is modelled by
  `Cache.close` returning `none`.
-/

namespace GoMemCache

/-- `CacheItem` of cache.go: a stored value together with the Unix
timestamp (seconds) at which it expires; `0` means no expiration. -/
structure CacheItem (α : Type) where
  value : α
  expiration : Int
  deriving Repr, DecidableEq

/-- `Cache` of cache.go: the table of items, plus whether the
`stopCleanup` channel has been closed. -/
structure Cache (α : Type) where
  items : List (String × CacheItem α)
  stopClosed : Bool
  deriving Repr, DecidableEq

/-- Go map lookup `c.items[key]`: the binding of `k`, if any. -/
def lookupItem {α : Type} : List (String × CacheItem α) → String → Option (CacheItem α)
  | [], _ => none
  | (k', it) :: rest, k => if k = k' then some it else lookupItem rest k

/-- Go's builtin `delete(c.items, key)`: drop every binding of `k`. -/
def removeKey {α : Type} : List (String × CacheItem α) → String → List (String × CacheItem α)
  | [], _ => []
  | (k', it) :: rest, k => if k = k' then removeKey rest k else (k', it) :: removeKey rest k

/-- Go map assignment `c.items[key] = item`: bind `k` to `it`, replacing
any previous binding. -/
def setItem {α : Type} (l : List (String × CacheItem α)) (k : String) (it : CacheItem α) :
    List (String × CacheItem α) :=
  (k, it) :: removeKey l k

/-- `NewCache` of cache.go: empty table, `stopCleanup` channel open.
(`NewCache` also spawns `startCleanup`; the reaper loop is modelled
separately by `Cache.startCleanupRun`.) -/
def NewCache (α : Type) : Cache α := ⟨[], false⟩

/-- The expiry test `item.Expiration > 0 && now >= item.Expiration`,
written identically in `Get` and in `deleteExpired` of cache.go. -/
def CacheItem.isExpired {α : Type} (it : CacheItem α) (now : Int) : Bool :=
  decide (it.expiration > 0) && decide (now ≥ it.expiration)

/-- `Set` of cache.go at current time `now`: with a positive ttl the
expiration is `time.Now().Add(ttl[0]).Unix()`, i.e. `now + t` in whole
seconds; otherwise (no ttl argument, or a non-positive one) it is `0`. -/
def Cache.set {α : Type} (c : Cache α) (now : Int) (key : String) (value : α)
    (ttl : Option Int) : Cache α :=
  let expiration : Int :=
    match ttl with
    | some t => if t > 0 then now + t else 0
    | none => 0
  { c with items := setItem c.items key ⟨value, expiration⟩ }

/-- `Delete` of cache.go. -/
def Cache.delete {α : Type} (c : Cache α) (key : String) : Cache α :=
  { c with items := removeKey c.items key }

/-- `Get` of cache.go at current time `now`: returns the Go pair
`(interface\x7b\x7d, bool)` — modelled `Option α × Bool` — together with the
table state after the call (the lazy-deletion path calls `c.Delete(key)`
when the item is found expired). -/
def Cache.get {α : Type} (c : Cache α) (now : Int) (key : String) :
    (Option α × Bool) × Cache α :=
  match lookupItem c.items key with
  | none => ((none, false), c)
  | some item =>
    if item.isExpired now then ((none, false), c.delete key)
    else ((some item.value, true), c)

/-- `Clear` of cache.go: replace the table with a fresh empty map. -/
def Cache.clear {α : Type} (c : Cache α) : Cache α :=
  { c with items := [] }

/-- `Keys` of cache.go: every key currently bound in the table. -/
def Cache.keys {α : Type} (c : Cache α) : List String :=
  c.items.map Prod.fst

/-- `deleteExpired` of cache.go: read `now` once, collect the keys of the
expired items in a first pass, then delete exactly those keys in a second
pass. -/
def Cache.deleteExpired {α : Type} (c : Cache α) (now : Int) : Cache α :=
  let expiredKeys := (c.items.filter fun kv => kv.2.isExpired now).map Prod.fst
  expiredKeys.foldl (fun acc k => acc.delete k) c

/-- The `startCleanup` loop of cache.go, one list entry per ticker tick
(the entry is the Unix time at which that tick fires): each iteration the
`select` either observes the closed `stopCleanup` channel and returns, or
runs `deleteExpired`. -/
def Cache.startCleanupRun {α : Type} (c : Cache α) : List Int → Cache α
  | [] => c
  | now :: ticks =>
    if c.stopClosed then c else (c.deleteExpired now).startCleanupRun ticks

/-- `Close` of cache.go runs `close(c.stopCleanup)`.  Closing an
already-closed channel panics at run time in Go; the panic is modelled by
`none`. -/
def Cache.close {α : Type} (c : Cache α) : Option (Cache α) :=
  if c.stopClosed then none else some { c with stopClosed := true }

/-- Well-formedness of a reachable cache state: a Go map binds each key at
most once. -/
def Cache.WF {α : Type} (c : Cache α) : Prop :=
  (c.items.map Prod.fst).Nodup

/-! Helper lemmas about the association-list table. -/

theorem lookupItem_removeKey {α : Type} (l : List (String × CacheItem α)) (k k' : String) :
    lookupItem (removeKey l k) k' = if k' = k then none else lookupItem l k' := by
  induction l with
  | nil => simp [removeKey, lookupItem]
  | cons hd tl ih =>
    obtain ⟨k'', it⟩ := hd
    by_cases h1 : k = k''
    · subst h1
      by_cases h2 : k' = k
      · subst h2; simp [removeKey, lookupItem, ih]
      · simp [removeKey, lookupItem, h2, ih]
    · by_cases h2 : k' = k''
      · subst h2
        have hne : ¬ k' = k := fun h => h1 h.symm
        simp [removeKey, lookupItem, h1, hne]
      · simp [removeKey, lookupItem, h1, h2, ih]

theorem lookupItem_setItem {α : Type} (l : List (String × CacheItem α)) (k k' : String)
    (it : CacheItem α) :
    lookupItem (setItem l k it) k' = if k' = k then some it else lookupItem l k' := by
  by_cases h : k' = k
  · simp [setItem, lookupItem, h]
  · simp [setItem, lookupItem, h, lookupItem_removeKey]

theorem removeKey_removeKey {α : Type} (l : List (String × CacheItem α)) (k : String) :
    removeKey (removeKey l k) k = removeKey l k := by
  induction l with
  | nil => simp [removeKey]
  | cons hd tl ih =>
    obtain ⟨k'', it⟩ := hd
    by_cases h : k = k''
    · subst h; simp [removeKey, ih]
    · simp [removeKey, h, ih]

theorem removeKey_eq_filter {α : Type} (l : List (String × CacheItem α)) (k : String) :
    removeKey l k = l.filter (fun kv => !(decide (kv.1 = k))) := by
  induction l with
  | nil => simp [removeKey]
  | cons hd tl ih =>
    obtain ⟨k'', it⟩ := hd
    by_cases h : k = k''
    · subst h; simp [removeKey, ih, List.filter]
    · have hne : ¬ k'' = k := fun h2 => h h2.symm
      simp [removeKey, h, ih, List.filter, hne]

theorem foldl_removeKey {α : Type} (ks : List String) :
    ∀ l : List (String × CacheItem α),
      ks.foldl removeKey l = l.filter (fun kv => !(decide (kv.1 ∈ ks))) := by
  induction ks with
  | nil => intro l; simp
  | cons k ks ih =>
    intro l
    rw [List.foldl_cons, ih, removeKey_eq_filter, List.filter_filter]
    refine List.filter_congr ?_
    intro kv _
    by_cases h1 : kv.1 = k <;> by_cases h2 : kv.1 ∈ ks <;> simp [h1, h2]

theorem mem_keys_iff_lookup {α : Type} (l : List (String × CacheItem α)) (k : String) :
    k ∈ l.map Prod.fst ↔ (lookupItem l k).isSome = true := by
  induction l with
  | nil => simp [lookupItem]
  | cons hd tl ih =>
    obtain ⟨k'', it⟩ := hd
    by_cases h : k = k'' <;> simp [lookupItem, h, ih]

theorem lookupItem_filter {α : Type} (l : List (String × CacheItem α)) (k : String)
    (it : CacheItem α) (q : String × CacheItem α → Bool)
    (hl : lookupItem l k = some it) (hq : q (k, it) = true) :
    lookupItem (l.filter q) k = some it := by
  induction l with
  | nil => simp [lookupItem] at hl
  | cons hd tl ih =>
    obtain ⟨k'', it''⟩ := hd
    by_cases h : k = k''
    · subst h
      simp [lookupItem] at hl
      subst hl
      simp [List.filter, hq, lookupItem]
    · simp [lookupItem, h] at hl
      by_cases hq' : q (k'', it'') = true
      · simp [List.filter, hq', lookupItem, h, ih hl]
      · simp only [Bool.not_eq_true] at hq'
        simp [List.filter, hq', ih hl]

theorem foldl_delete_items {α : Type} (ks : List String) :
    ∀ c : Cache α,
      (ks.foldl (fun acc k => acc.delete k) c).items = ks.foldl removeKey c.items := by
  induction ks with
  | nil => intro c; simp
  | cons k ks ih => intro c; rw [List.foldl_cons, List.foldl_cons, ih]; rfl

/-- The two-phase sweep, as one equation: under key-uniqueness, the sweep
keeps exactly the unexpired bindings. -/
theorem deleteExpired_items {α : Type} (c : Cache α) (now : Int) (hwf : c.WF) :
    (c.deleteExpired now).items = c.items.filter (fun kv => !(kv.2.isExpired now)) := by
  unfold Cache.deleteExpired
  rw [foldl_delete_items, foldl_removeKey]
  refine List.filter_congr ?_
  intro kv hkv
  have hinj := List.inj_on_of_nodup_map hwf
  congr 1
  by_cases hexp : kv.2.isExpired now = true
  · have : kv ∈ c.items.filter (fun kv => kv.2.isExpired now) :=
      List.mem_filter.mpr ⟨hkv, hexp⟩
    have : kv.1 ∈ (c.items.filter (fun kv => kv.2.isExpired now)).map Prod.fst :=
      List.mem_map.mpr ⟨kv, this, rfl⟩
    simp [this, hexp]
  · simp only [Bool.not_eq_true] at hexp
    rw [hexp]
    simp only [decide_eq_false_iff_not]
    intro hmem
    obtain ⟨kv', hkv', hfst⟩ := List.mem_map.mp hmem
    obtain ⟨hkv'm, hkv'e⟩ := List.mem_filter.mp hkv'
    have : kv' = kv := hinj hkv'm hkv hfst
    rw [this] at hkv'e
    rw [hexp] at hkv'e
    exact Bool.false_ne_true hkv'e

theorem deleteExpired_stopClosed {α : Type} (c : Cache α) (now : Int) :
    (c.deleteExpired now).stopClosed = c.stopClosed := by
  unfold Cache.deleteExpired
  generalize ((c.items.filter fun kv => kv.2.isExpired now).map Prod.fst) = ks
  induction ks generalizing c with
  | nil => rfl
  | cons k ks ih => exact ih (c.delete k)

theorem startCleanupRun_closed {α : Type} (c : Cache α) (h : c.stopClosed = true) :
    ∀ ticks : List Int, c.startCleanupRun ticks = c := by
  intro ticks
  cases ticks with
  | nil => rfl
  | cons now ticks => simp [Cache.startCleanupRun, h]

theorem lookupItem_mem {α : Type} (l : List (String × CacheItem α)) (k : String)
    (it : CacheItem α) (hl : lookupItem l k = some it) : (k, it) ∈ l := by
  induction l with
  | nil => simp [lookupItem] at hl
  | cons hd tl ih =>
    obtain ⟨k'', it''⟩ := hd
    by_cases h : k = k''
    · subst h
      simp [lookupItem] at hl
      subst hl
      exact List.mem_cons_self _ _
    · simp [lookupItem, h] at hl
      exact List.mem_cons_of_mem _ (ih hl)

theorem lookupItem_filter_none {α : Type} (l : List (String × CacheItem α)) (k : String)
    (it : CacheItem α) (q : String × CacheItem α → Bool)
    (hwf : (l.map Prod.fst).Nodup) (hl : lookupItem l k = some it)
    (hq : q (k, it) = false) :
    lookupItem (l.filter q) k = none := by
  rcases hres : lookupItem (l.filter q) k with _ | it'
  · rfl
  · exfalso
    have hmem' : (k, it') ∈ l.filter q := lookupItem_mem _ _ _ hres
    obtain ⟨hmem, hq'⟩ := List.mem_filter.mp hmem'
    have hkit : (k, it) ∈ l := lookupItem_mem _ _ _ hl
    have : (k, it') = (k, it) := List.inj_on_of_nodup_map hwf hmem hkit rfl
    rw [this] at hq'
    rw [hq] at hq'
    exact Bool.false_ne_true hq'

/-! The claims. -/

/-- C1: `Get` at current time `now` returns not-found for an absent key;
for a present key whose entry carries a positive expiration with
`now >= expires_at` it removes the entry and returns not-found; for a
present unexpired entry (expiration zero, or `now` strictly before a
positive expiration) it returns the stored value with found = true and
leaves the cache unchanged. -/
theorem get_lazy_expiry {α : Type} (c : Cache α) (now : Int) (k : String) :
    (lookupItem c.items k = none → c.get now k = ((none, false), c)) ∧
    (∀ it, lookupItem c.items k = some it →
      ((0 < it.expiration → it.expiration ≤ now →
          (c.get now k).1 = (none, false) ∧
          lookupItem (c.get now k).2.items k = none) ∧
       (it.expiration = 0 → c.get now k = ((some it.value, true), c)) ∧
       (0 < it.expiration → now < it.expiration →
          c.get now k = ((some it.value, true), c)))) := by
  refine ⟨fun h => by simp [Cache.get, h], fun it hl => ⟨?_, ?_, ?_⟩⟩
  · intro h1 h2
    have hexp : it.isExpired now = true := by
      simp [CacheItem.isExpired]
      omega
    refine ⟨by simp [Cache.get, hl, hexp], ?_⟩
    simp [Cache.get, hl, hexp, Cache.delete, lookupItem_removeKey]
  · intro h0
    have hexp : it.isExpired now = false := by
      simp [CacheItem.isExpired, h0]
    simp [Cache.get, hl, hexp]
  · intro h1 h2
    have hexp : it.isExpired now = false := by
      simp [CacheItem.isExpired]
      omega
    simp [Cache.get, hl, hexp]

/-- C2: after `Set` with absent or non-positive ttl the stored entry has
expiration `0` and never tests as expired; after `Set` with positive ttl
`t` the stored entry is exactly `(value, now + t)`. -/
theorem set_ttl_expiration {α : Type} (c : Cache α) (now : Int) (k : String) (v : α)
    (ttl : Option Int) :
    ((ttl = none ∨ ∃ t, ttl = some t ∧ t ≤ 0) →
       ∃ it, lookupItem (c.set now k v ttl).items k = some it ∧ it.value = v ∧
         it.expiration = 0 ∧ ∀ now', it.isExpired now' = false) ∧
    (∀ t, ttl = some t → 0 < t →
       lookupItem (c.set now k v ttl).items k = some ⟨v, now + t⟩) := by
  constructor
  · rintro (rfl | ⟨t, rfl, ht⟩)
    · exact ⟨⟨v, 0⟩, by simp [Cache.set, lookupItem_setItem], rfl, rfl,
        fun now' => by simp [CacheItem.isExpired]⟩
    · refine ⟨⟨v, 0⟩, ?_, rfl, rfl, fun now' => by simp [CacheItem.isExpired]⟩
      have hng : ¬ t > 0 := by omega
      simp [Cache.set, lookupItem_setItem, hng]
  · rintro t rfl ht
    simp [Cache.set, lookupItem_setItem, ht]

/-- C9: a `Set` with no ttl argument followed immediately by `Get` of the
same key returns the stored value with found = true. -/
theorem set_get_roundtrip {α : Type} (c : Cache α) (now : Int) (k : String) (v : α) :
    ((c.set now k v none).get now k).1 = (some v, true) := by
  have hl : lookupItem (c.set now k v none).items k = some ⟨v, 0⟩ := by
    simp [Cache.set, lookupItem_setItem]
  simp [Cache.get, hl, CacheItem.isExpired]

/-- C10: `Get` of a key holding an unexpired entry returns the stored
value and leaves the whole cache state unchanged — it does not extend the
entry's ttl, despite the doc comment on `Get` claiming it does. -/
theorem get_no_mutation {α : Type} (c : Cache α) (now : Int) (k : String)
    (it : CacheItem α) (hl : lookupItem c.items k = some it)
    (hun : it.expiration = 0 ∨ (0 < it.expiration ∧ now < it.expiration)) :
    c.get now k = ((some it.value, true), c) := by
  have hexp : it.isExpired now = false := by
    rcases hun with h0 | ⟨h1, h2⟩
    · simp [CacheItem.isExpired, h0]
    · simp [CacheItem.isExpired]
      omega
  simp [Cache.get, hl, hexp]

/-- C10's witness: `Get` on a concrete one-entry cache. -/
theorem get_no_mutation_witness :
    Cache.get ⟨[("a", ⟨(3 : Nat), 0⟩)], false⟩ 5 "a" =
      ((some 3, true), ⟨[("a", ⟨3, 0⟩)], false⟩) :=
  get_no_mutation ⟨[("a", ⟨(3 : Nat), 0⟩)], false⟩ 5 "a" ⟨3, 0⟩ rfl (Or.inl rfl)

/-- C3: an entry set with positive ttl `d` at time `now` is returned by
`Get` at every time `now + t` with `t < d`, and at every time `now + t`
with `t >= d` the `Get` reports not-found and removes the entry. -/
theorem expiry_boundary {α : Type} (c : Cache α) (now t d : Int) (k : String) (v : α)
    (hd : 0 < d) (hnow : 0 ≤ now) (ht : 0 ≤ t) :
    (t < d → ((c.set now k v (some d)).get (now + t) k).1 = (some v, true)) ∧
    (d ≤ t → ((c.set now k v (some d)).get (now + t) k).1 = (none, false) ∧
       lookupItem ((c.set now k v (some d)).get (now + t) k).2.items k = none) := by
  have hl : lookupItem (c.set now k v (some d)).items k = some ⟨v, now + d⟩ := by
    simp [Cache.set, lookupItem_setItem, hd]
  constructor
  · intro hlt
    have hexp : (⟨v, now + d⟩ : CacheItem α).isExpired (now + t) = false := by
      simp [CacheItem.isExpired]
      omega
    simp [Cache.get, hl, hexp]
  · intro hle
    have hexp : (⟨v, now + d⟩ : CacheItem α).isExpired (now + t) = true := by
      simp [CacheItem.isExpired]
      omega
    refine ⟨by simp [Cache.get, hl, hexp], ?_⟩
    simp [Cache.get, hl, hexp, Cache.delete, lookupItem_removeKey]

/-- C3's witness: with ttl 5, the value is still found 2 seconds after the
`Set` and is gone 6 seconds after a `Set` with ttl 6 (the boundary side is
exercised at `t = d`). -/
theorem expiry_boundary_witness :
    (((NewCache Nat).set 0 "k" 7 (some 5)).get (0 + 2) "k").1 = (some 7, true) ∧
    (((NewCache Nat).set 0 "k" 7 (some 6)).get (0 + 6) "k").1 = (none, false) :=
  ⟨(expiry_boundary (NewCache Nat) 0 2 5 "k" 7 (by decide) (by decide) (by decide)).1
      (by decide),
   ((expiry_boundary (NewCache Nat) 0 6 6 "k" 7 (by decide) (by decide) (by decide)).2
      (by decide)).1⟩

instance {α : Type} (c : Cache α) : Decidable c.WF :=
  inferInstanceAs (Decidable ((c.items.map Prod.fst).Nodup))

/-- C4: one sweep of the reaper, at its single time reading `now`, keeps
exactly the bindings that are not expired at `now` (every key with a
positive expiration `<= now` is removed, every other binding — in
particular every binding with expiration `0` — is kept unchanged). -/
theorem deleteExpired_two_phase {α : Type} (c : Cache α) (now : Int) (hwf : c.WF) :
    (c.deleteExpired now).items = c.items.filter (fun kv => !(kv.2.isExpired now)) ∧
    (∀ k it, lookupItem c.items k = some it →
       lookupItem (c.deleteExpired now).items k =
         if it.isExpired now then none else some it) := by
  refine ⟨deleteExpired_items c now hwf, ?_⟩
  intro k it hl
  rw [deleteExpired_items c now hwf]
  by_cases hexp : it.isExpired now = true
  · rw [if_pos hexp]
    exact lookupItem_filter_none _ _ it _ hwf hl (by simp [hexp])
  · simp only [Bool.not_eq_true] at hexp
    rw [hexp, if_neg (by simp)]
    exact lookupItem_filter _ _ _ _ hl (by simp [hexp])

/-- C4's witness: a sweep at time 9 of a concrete table removes the entry
expired at 5 and keeps both the no-expiration entry and the entry that
expires at 12. -/
theorem deleteExpired_two_phase_witness :
    (Cache.deleteExpired ⟨[("a", ⟨(1 : Nat), 5⟩), ("b", ⟨2, 0⟩), ("c", ⟨3, 12⟩)], false⟩
        9).items =
      List.filter (fun kv => !(kv.2.isExpired 9))
        [("a", ⟨(1 : Nat), 5⟩), ("b", ⟨2, 0⟩), ("c", ⟨3, 12⟩)] :=
  (deleteExpired_two_phase
      ⟨[("a", ⟨(1 : Nat), 5⟩), ("b", ⟨2, 0⟩), ("c", ⟨3, 12⟩)], false⟩ 9 (by decide)).1

/-- C5: a second `Set` of the same key fully replaces the earlier entry —
the resulting cache state is identical to the one the second `Set` alone
would have produced from the original cache, the stored value is the new
one, and the expiration is governed solely by the new ttl (reset to
`now2 + t2` for positive `t2`, cleared to `0` when the ttl is absent or
non-positive). -/
theorem set_replaces {α : Type} (c : Cache α) (now1 now2 : Int) (k : String)
    (v1 v2 : α) (ttl1 ttl2 : Option Int) :
    (c.set now1 k v1 ttl1).set now2 k v2 ttl2 = c.set now2 k v2 ttl2 ∧
    (∀ t2, ttl2 = some t2 → 0 < t2 →
       lookupItem ((c.set now1 k v1 ttl1).set now2 k v2 ttl2).items k =
         some ⟨v2, now2 + t2⟩) ∧
    ((ttl2 = none ∨ ∃ t2, ttl2 = some t2 ∧ t2 ≤ 0) →
       ∃ it, lookupItem ((c.set now1 k v1 ttl1).set now2 k v2 ttl2).items k = some it ∧
         it.value = v2 ∧ it.expiration = 0) := by
  have h1 : (c.set now1 k v1 ttl1).set now2 k v2 ttl2 = c.set now2 k v2 ttl2 := by
    simp [Cache.set, setItem, removeKey, removeKey_removeKey]
  refine ⟨h1, ?_, ?_⟩
  · rintro t2 rfl ht2
    rw [h1]
    simp [Cache.set, lookupItem_setItem, ht2]
  · rintro (rfl | ⟨t2, rfl, ht2⟩)
    · rw [h1]
      exact ⟨⟨v2, 0⟩, by simp [Cache.set, lookupItem_setItem], rfl, rfl⟩
    · rw [h1]
      refine ⟨⟨v2, 0⟩, ?_, rfl, rfl⟩
      have hng : ¬ t2 > 0 := by omega
      simp [Cache.set, lookupItem_setItem, hng]

/-- C6: `Keys` returns exactly the keys bound in the table, with no
filtering by expiration — witnessed by a reachable state (one `Set` on a
fresh cache) holding an entry whose positive expiration has already
passed at time 5 and whose key still appears in `Keys`. -/
theorem keys_unfiltered :
    (∀ (α : Type) (c : Cache α) (k : String),
       k ∈ c.keys ↔ (lookupItem c.items k).isSome = true) ∧
    (∃ (c : Cache Nat) (k : String) (now : Int) (it : CacheItem Nat),
       c = (NewCache Nat).set 0 k 0 (some 1) ∧
       lookupItem c.items k = some it ∧ 0 < it.expiration ∧ it.expiration ≤ now ∧
       k ∈ c.keys) := by
  constructor
  · intro α c k
    exact mem_keys_iff_lookup c.items k
  · exact ⟨(NewCache Nat).set 0 "a" 0 (some 1), "a", 5, ⟨0, 1⟩, rfl, by decide,
      by decide, by decide, by decide⟩

/-- C7: on a cache whose stop channel is still open, one `Close` succeeds
(leaving the table untouched), a second `Close` on the result is the Go
run-time panic (modelled `none`), and after the `Close` the cleanup loop
exits at once: it performs no sweep for any further ticks. -/
theorem close_once {α : Type} (c : Cache α) (h : c.stopClosed = false) :
    ∃ c', c.close = some c' ∧ c'.items = c.items ∧ c'.close = none ∧
      ∀ ticks : List Int, c'.startCleanupRun ticks = c' := by
  refine ⟨{ c with stopClosed := true }, ?_, rfl, ?_, ?_⟩
  · simp [Cache.close, h]
  · simp [Cache.close]
  · exact startCleanupRun_closed _ rfl

/-- C7's witness: the double-`Close` behaviour on a fresh cache. -/
theorem close_once_witness :
    ∃ c', (NewCache Nat).close = some c' ∧ c'.items = (NewCache Nat).items ∧
      c'.close = none ∧ ∀ ticks : List Int, c'.startCleanupRun ticks = c' :=
  close_once (NewCache Nat) rfl

/-- C8: an entry with expiration `0` is kept by every operation except an
explicit `Delete` of its key, a `Clear`, or a `Set` overwriting its key:
`Get` of its key returns it (unchanged cache) at every time, no reaper
sweep removes it, and `Get`/`Delete`/`Set` involving other keys leave it
bound. -/
theorem noTTL_persistence {α : Type} (c : Cache α) (k : String) (it : CacheItem α)
    (hwf : c.WF) (hl : lookupItem c.items k = some it) (h0 : it.expiration = 0) :
    (∀ now, c.get now k = ((some it.value, true), c)) ∧
    (∀ now, lookupItem (c.deleteExpired now).items k = some it) ∧
    (∀ now k', lookupItem (c.get now k').2.items k = some it) ∧
    (∀ k', ¬ k' = k → lookupItem (c.delete k').items k = some it) ∧
    (∀ now' k' v ttl, ¬ k' = k → lookupItem (c.set now' k' v ttl).items k = some it) := by
  have hexp : ∀ now, it.isExpired now = false := fun now => by
    simp [CacheItem.isExpired, h0]
  refine ⟨?_, ?_, ?_, ?_, ?_⟩
  · intro now
    simp [Cache.get, hl, hexp now]
  · intro now
    rw [deleteExpired_items c now hwf]
    exact lookupItem_filter _ _ _ _ hl (by simp [hexp now])
  · intro now k'
    rcases hres : lookupItem c.items k' with _ | it'
    · simp [Cache.get, hres, hl]
    · by_cases hexp' : it'.isExpired now = true
      · have hne : ¬ k = k' := by
          intro he
          subst he
          rw [hl] at hres
          cases hres
          rw [hexp now] at hexp'
          exact Bool.false_ne_true hexp'
        simp [Cache.get, hres, hexp', Cache.delete, lookupItem_removeKey, hne, hl]
      · simp only [Bool.not_eq_true] at hexp'
        simp [Cache.get, hres, hexp', hl]
  · intro k' hne
    have hne' : ¬ k = k' := fun he => hne he.symm
    simp [Cache.delete, lookupItem_removeKey, hne', hl]
  · intro now' k' v ttl hne
    have hne' : ¬ k = k' := fun he => hne he.symm
    simp [Cache.set, lookupItem_setItem, hne', hl]

/-- C8's witness: an entry with expiration `0` survives a `Get` long
after insertion on a concrete cache. -/
theorem noTTL_persistence_witness :
    Cache.get ⟨[("a", ⟨(7 : Nat), 0⟩)], false⟩ 1000000 "a" =
      ((some 7, true), ⟨[("a", ⟨7, 0⟩)], false⟩) :=
  (noTTL_persistence ⟨[("a", ⟨(7 : Nat), 0⟩)], false⟩ "a" ⟨7, 0⟩ (by decide)
      (by decide) rfl).1 1000000

end GoMemCache
